import Mathlib

/-!
Shallow embedding of `src/clicker.c` (FoxholeTool): the action-state engine,
the worker loop that turns toggle flags into edge-triggered input events, the
suspend / shutdown release passes, the 30 ms spam-click timing policy, and the
hotkey-config load/save round trip.

Conventions of the embedding:
* The worker thread reads the shared atomic flags once per loop iteration; an
  `Iter` record is the snapshot of those reads (plus the `now_ms()` reading).
  A whole execution of the polling loop is a list of such snapshots, one per
  iteration; the loop exits when `g_running` is observed false, i.e. after the
  last snapshot.
* Input-injection calls (`win_send_key` / `x11_key`, mouse-button and
  cursor-move calls) become `Emit` events, tagged by the logical action whose
  code site emits them, exactly as the code sites are laid out in C.
* `uint64_t` time arithmetic is modelled on `Nat` with an explicit wrap-around
  subtraction `usub64` for the `t - last_click` expression.
-/

/-- The four held-type actions driven by edge detection in `worker_thread`. -/
inductive HeldAct where
  | W
  | S
  | LMB
  | RMB
deriving DecidableEq

/-- One low-level input event emitted by the worker thread.  `press`/`release`
are the key-down/key-up (or button-down/button-up) calls of the held-action
code sites; `moveCursor`, `spamDown`, `spamUp` are the three calls of the
spam-click code site. -/
inductive Emit where
  | press (a : HeldAct)
  | release (a : HeldAct)
  | moveCursor (x y : Int)
  | spamDown
  | spamUp
deriving DecidableEq

/-- Worker-local state of `worker_thread`: the `w_is_down`, `s_is_down`,
`lmb_is_down`, `rmb_is_down` bookkeeping and `last_click`. -/
structure WState where
  wDown : Bool
  sDown : Bool
  lDown : Bool
  rDown : Bool
  lastClick : Nat
deriving DecidableEq

/-- Initial worker state: `int w_is_down = 0, s_is_down = 0, lmb_is_down = 0,
rmb_is_down = 0; uint64_t last_click = 0;`. -/
def initWState : WState := ⟨false, false, false, false, 0⟩

/-- The values the worker observes in one iteration of its polling loop:
`g_suspended`, the five action flags, `g_saved_x`/`g_saved_y`, and `now_ms()`. -/
structure Iter where
  susp : Bool
  holdW : Bool
  holdS : Bool
  holdLmb : Bool
  holdRmb : Bool
  spam : Bool
  sx : Int
  sy : Int
  t : Nat

/-- Physical output state of one held action, read from the worker state. -/
def heldPhys (st : WState) : HeldAct → Bool
  | HeldAct.W => st.wDown
  | HeldAct.S => st.sDown
  | HeldAct.LMB => st.lDown
  | HeldAct.RMB => st.rDown

/-- Desired state of one held action, read from the iteration snapshot. -/
def heldDesired (it : Iter) : HeldAct → Bool
  | HeldAct.W => it.holdW
  | HeldAct.S => it.holdS
  | HeldAct.LMB => it.holdLmb
  | HeldAct.RMB => it.holdRmb

/-- One held-action block of the worker loop, e.g. for W:
`if (g_hold_w) { if (!w_is_down) { send press; w_is_down = 1; } }`
`else if (w_is_down) { send release; w_is_down = 0; }`.
Returns the new `*_is_down` value and the emitted events. -/
def heldStep (desired phys : Bool) (a : HeldAct) : Bool × List Emit :=
  if desired then
    if phys then (true, []) else (true, [Emit.press a])
  else
    if phys then (false, [Emit.release a]) else (false, [])

/-- Wrap-around `uint64_t` subtraction `a - b`, as in `t - last_click`. -/
def usub64 (a b : Nat) : Nat := (a + (2 ^ 64 - b % 2 ^ 64)) % 2 ^ 64

/-- The spam-click block of the worker loop:
`if (g_spam_left) { uint64_t t = now_ms(); if (t - last_click >= 30) { ... } }`.
Returns the new `last_click` and the emitted events. -/
def spamStep (spam : Bool) (sx sy : Int) (t lc : Nat) : Nat × List Emit :=
  if spam then
    if usub64 t lc ≥ 30 then
      (t, [Emit.moveCursor sx sy, Emit.spamDown, Emit.spamUp])
    else (lc, [])
  else (lc, [])

/-- One full iteration of the worker loop body.  The suspended branch releases
whatever is physically down (in source order W, S, LMB, RMB) and `continue`s,
skipping the held-action and spam blocks; otherwise the four held blocks run
followed by the spam block. -/
def stepIter (st : WState) (it : Iter) : WState × List Emit :=
  if it.susp then
    (⟨false, false, false, false, st.lastClick⟩,
      (if st.wDown then [Emit.release HeldAct.W] else []) ++
      (if st.sDown then [Emit.release HeldAct.S] else []) ++
      (if st.lDown then [Emit.release HeldAct.LMB] else []) ++
      (if st.rDown then [Emit.release HeldAct.RMB] else []))
  else
    (⟨(heldStep it.holdW st.wDown HeldAct.W).1,
      (heldStep it.holdS st.sDown HeldAct.S).1,
      (heldStep it.holdLmb st.lDown HeldAct.LMB).1,
      (heldStep it.holdRmb st.rDown HeldAct.RMB).1,
      (spamStep it.spam it.sx it.sy it.t st.lastClick).1⟩,
      (heldStep it.holdW st.wDown HeldAct.W).2 ++
      (heldStep it.holdS st.sDown HeldAct.S).2 ++
      (heldStep it.holdLmb st.lDown HeldAct.LMB).2 ++
      (heldStep it.holdRmb st.rDown HeldAct.RMB).2 ++
      (spamStep it.spam it.sx it.sy it.t st.lastClick).2)

/-- The polling loop `while (atomic_load(&g_running)) { ... }`, run over the
iteration snapshots it observes; returns the final worker state and the
concatenation of all emitted events. -/
def runLoop (st : WState) : List Iter → WState × List Emit
  | [] => (st, [])
  | it :: rest =>
      let r1 := stepIter st it
      let r2 := runLoop r1.1 rest
      (r2.1, r1.2 ++ r2.2)

/-- The events of `set_all_up`: unconditional release of W, S, left button,
right button, in source order. -/
def set_all_up_events : List Emit :=
  [Emit.release HeldAct.W, Emit.release HeldAct.S,
   Emit.release HeldAct.LMB, Emit.release HeldAct.RMB]

/-- Shared global state touched by `handle_action` / `set_all_up`:
`g_running`, `g_suspended`, the five action flags and the saved cursor. -/
structure GState where
  running : Bool
  suspended : Bool
  spamLeft : Bool
  holdW : Bool
  holdS : Bool
  holdLmb : Bool
  holdRmb : Bool
  savedX : Int
  savedY : Int

/-- Model of `set_all_up`: stores 0 into the five action flags and emits an
unconditional release for each held output. -/
def set_all_up (g : GState) : GState × List Emit :=
  ({ g with spamLeft := false, holdW := false, holdS := false,
            holdLmb := false, holdRmb := false },
   set_all_up_events)

/-- The whole `worker_thread` body: the polling loop over its observed
iteration snapshots, then the `set_all_up` call before returning.  The result is the
final worker-local state and every event the thread ever emits, in order. -/
def worker_thread (iters : List Iter) : WState × List Emit :=
  let r := runLoop initWState iters
  (r.1, r.2 ++ set_all_up_events)

/-- Console lines printed by `handle_action` and its helpers. -/
inductive LogEv where
  | savedPos (x y : Int)
  | toggled (name : String) (newVal : Bool)
  | suspendedMsg (b : Bool)

/-- Model of `toggle_with_log`: reads the flag, negates, stores, prints. -/
def toggle_with_log (name : String) (v : Bool) : Bool × List LogEv :=
  (!v, [LogEv.toggled name (!v)])

/-- Model of `save_cursor_pos`: stores the live cursor into `g_saved_x` and `g_saved_y`
and prints it.  The live cursor position is an input of the model. -/
def save_cursor_pos (g : GState) (cursor : Int × Int) : GState × List LogEv :=
  ({ g with savedX := cursor.1, savedY := cursor.2 },
   [LogEv.savedPos cursor.1 cursor.2])

/-- Model of `handle_action(int action)`, the hotkey entry point.  Action indices are
the C enum: 0 = SPAM_LMB, 1 = HOLD_W, 2 = HOLD_S, 3 = HOLD_RMB, 4 = HOLD_LMB,
5 = SUSPEND, 6 = EXIT; anything else falls to `default: break;`.  `cursor` is
the live cursor position read by `save_cursor_pos` if it is called. -/
def handle_action (g : GState) (cursor : Int × Int) (action : Int) : GState × List LogEv :=
  if action = 0 then
    let r1 := if g.suspended then (g, []) else save_cursor_pos g cursor
    let r2 := toggle_with_log "Spam LMB" r1.1.spamLeft
    ({ r1.1 with spamLeft := r2.1 }, r1.2 ++ r2.2)
  else if action = 1 then
    let r := toggle_with_log "Hold W" g.holdW
    ({ g with holdW := r.1 }, r.2)
  else if action = 2 then
    let r := toggle_with_log "Hold S" g.holdS
    ({ g with holdS := r.1 }, r.2)
  else if action = 3 then
    let r := toggle_with_log "Hold RMB" g.holdRmb
    ({ g with holdRmb := r.1 }, r.2)
  else if action = 4 then
    let r := toggle_with_log "Hold LMB" g.holdLmb
    ({ g with holdLmb := r.1 }, r.2)
  else if action = 5 then
    ({ g with suspended := !g.suspended }, [LogEv.suspendedMsg (!g.suspended)])
  else if action = 6 then
    ({ g with running := false }, [])
  else
    (g, [])

/-- Alternation checker for one held action: walk the event list keeping the
expected down-state; a press while down or a release while up is a violation
(`none`); otherwise return the final down-state. -/
def altRun (a : HeldAct) : Bool → List Emit → Option Bool
  | d, [] => some d
  | d, e :: rest =>
      if e = Emit.press a then (if d then none else altRun a true rest)
      else if e = Emit.release a then (if d then altRun a false rest else none)
      else altRun a d rest

/-- Alternation checker for the spam-click action's button events. -/
def spamAltRun : Bool → List Emit → Option Bool
  | d, [] => some d
  | d, e :: rest =>
      if e = Emit.spamDown then (if d then none else spamAltRun true rest)
      else if e = Emit.spamUp then (if d then spamAltRun false rest else none)
      else spamAltRun d rest

/-! Hotkey configuration: names, codes, load and save. -/

/-- X11 keysym values used by the Linux build (`XK_F2` .. `XK_F11`). -/
def XK_F2 : Nat := 0xffbf
def XK_F3 : Nat := 0xffc0
def XK_F4 : Nat := 0xffc1
def XK_F6 : Nat := 0xffc3
def XK_F7 : Nat := 0xffc4
def XK_F8 : Nat := 0xffc5
def XK_F9 : Nat := 0xffc6
def XK_F10 : Nat := 0xffc7
def XK_F11 : Nat := 0xffc8

/-- The table `g_action_names[ACTION_COUNT]`, indexed by the action enum. -/
def g_action_names (i : Fin 7) : String :=
  match i.val with
  | 0 => "Spam LMB"
  | 1 => "Hold W"
  | 2 => "Hold S"
  | 3 => "Hold RMB"
  | 4 => "Hold LMB"
  | 5 => "Suspend"
  | _ => "Exit"

/-- Model of `key_name_from_code`: readable name for a key code, unknown codes give a question mark. -/
def key_name_from_code (ks : Nat) : String :=
  if ks = XK_F2 then "F2"
  else if ks = XK_F3 then "F3"
  else if ks = XK_F4 then "F4"
  else if ks = XK_F6 then "F6"
  else if ks = XK_F7 then "F7"
  else if ks = XK_F8 then "F8"
  else if ks = XK_F9 then "F9"
  else if ks = XK_F10 then "F10"
  else if ks = XK_F11 then "F11"
  else "?"

/-- One character of `strtoupper_simple`: `'a'..'z'` mapped to upper case. -/
def upChar (c : Char) : Char :=
  if 'a' ≤ c ∧ c ≤ 'z' then Char.ofNat (c.toNat - 32) else c

/-- Model of `key_code_from_name`: empty name gives 0; otherwise the name is copied
into a 16-byte buffer (truncating to 15 characters), upper-cased, and compared
against the known key names; unknown names give 0. -/
def key_code_from_name (name : List Char) : Nat :=
  if name = [] then 0
  else
    let buf := (name.take 15).map upChar
    if buf = "F2".toList then XK_F2
    else if buf = "F3".toList then XK_F3
    else if buf = "F4".toList then XK_F4
    else if buf = "F6".toList then XK_F6
    else if buf = "F7".toList then XK_F7
    else if buf = "F8".toList then XK_F8
    else if buf = "F9".toList then XK_F9
    else if buf = "F10".toList then XK_F10
    else if buf = "F11".toList then XK_F11
    else 0

/-- Model of `init_default_hotkeys` (Linux build): the default binding table. -/
def default_hotkeys : Fin 7 → Nat
  | ⟨0, _⟩ => XK_F2
  | ⟨1, _⟩ => XK_F3
  | ⟨2, _⟩ => XK_F4
  | ⟨3, _⟩ => XK_F6
  | ⟨4, _⟩ => XK_F7
  | ⟨5, _⟩ => XK_F9
  | _ => XK_F10

/-- C `isspace` on the default locale. -/
def isSpaceC (c : Char) : Bool :=
  c = ' ' ∨ c = '\t' ∨ c = '\n' ∨ c = '\x0b' ∨ c = '\x0c' ∨ c = '\r'

/-- Model of `sscanf(line, " %63[^=]=%63s", key, val)` succeeding with 2 conversions:
skip leading whitespace; read at most 63 characters other than `=` (at least
one); match a literal `=`; skip whitespace; read at most 63 non-whitespace
characters (at least one).  Returns the two strings on success. -/
def parse_config_line (line : List Char) : Option (List Char × List Char) :=
  let l1 := line.dropWhile isSpaceC
  let key := (l1.takeWhile (fun c => c ≠ '=')).take 63
  if key = [] then none
  else
    match l1.drop key.length with
    | '=' :: r2 =>
        let r3 := r2.dropWhile isSpaceC
        let val := (r3.takeWhile (fun c => ¬ isSpaceC c)).take 63
        if val = [] then none else some (key, val)
    | _ => none

/-- The body of `load_hotkey_config`'s `while (fgets(...))` loop for one line:
skip comment / blank lines, parse, look the action name up (first match in
enum order), and overwrite the binding only when the key name is recognized
(`code != 0`). -/
def apply_config_line (keys : Fin 7 → Nat) (line : List Char) : Fin 7 → Nat :=
  match line with
  | [] => keys
  | c :: _ =>
      if c = '#' ∨ c = '\n' ∨ c = '\r' then keys
      else
        match parse_config_line line with
        | none => keys
        | some kv =>
            match (List.finRange 7).find? (fun i => (g_action_names i).toList = kv.1) with
            | none => keys
            | some action =>
                let code := key_code_from_name kv.2
                if code ≠ 0 then Function.update keys action code else keys

/-- Model of `load_hotkey_config`, applied to the lines of the config file (each line as
`fgets` returns it, normally ending in a newline), starting from the current
binding table. -/
def load_hotkey_config (keys : Fin 7 → Nat) (file : List (List Char)) : Fin 7 → Nat :=
  file.foldl apply_config_line keys

/-- Model of `save_hotkey_config`: one `"%s=%s\n"` line per action, in enum order. -/
def save_hotkey_config (keys : Fin 7 → Nat) : List (List Char) :=
  (List.finRange 7).map
    (fun i => (g_action_names i).toList ++ '=' :: (key_name_from_code (keys i)).toList ++ ['\n'])

/-- The key codes that `key_code_from_name` can produce (besides 0): every
code a loaded config can install, and every default. -/
def validCode (c : Nat) : Prop :=
  c ∈ [XK_F2, XK_F3, XK_F4, XK_F6, XK_F7, XK_F8, XK_F9, XK_F10, XK_F11]

instance (c : Nat) : Decidable (validCode c) := by
  unfold validCode
  infer_instance

/-! Helper lemmas about single worker-loop blocks. -/

theorem heldStep_count_press (d p : Bool) (a b : HeldAct) :
    ((heldStep d p b).2).count (Emit.press a) =
      if a = b ∧ d = true ∧ p = false then 1 else 0 := by
  by_cases hab : a = b <;>
    cases d <;> cases p <;>
    simp [heldStep, List.count_cons, hab]

theorem heldStep_count_release (d p : Bool) (a b : HeldAct) :
    ((heldStep d p b).2).count (Emit.release a) =
      if a = b ∧ d = false ∧ p = true then 1 else 0 := by
  by_cases hab : a = b <;>
    cases d <;> cases p <;>
    simp [heldStep, List.count_cons, hab]

theorem spamStep_count_press (sp : Bool) (sx sy : Int) (t lc : Nat) (a : HeldAct) :
    ((spamStep sp sx sy t lc).2).count (Emit.press a) = 0 := by
  unfold spamStep
  split <;> [skip; simp]
  split <;> simp [List.count_cons]

theorem spamStep_count_release (sp : Bool) (sx sy : Int) (t lc : Nat) (a : HeldAct) :
    ((spamStep sp sx sy t lc).2).count (Emit.release a) = 0 := by
  unfold spamStep
  split <;> [skip; simp]
  split <;> simp [List.count_cons]

theorem heldStep_fst (d p : Bool) (a : HeldAct) : (heldStep d p a).1 = d := by
  cases d <;> cases p <;> simp [heldStep]

/-- C2: for every held-type action and every worker-loop iteration with
SuspendFlag false: desired true and physical up emits exactly one press and
records down; desired false and physical down emits exactly one release and
records up; desired equal to physical emits neither a press nor a release and
leaves the recorded physical state unchanged. -/
theorem held_edge_exactly_once (st : WState) (it : Iter) (a : HeldAct)
    (hs : it.susp = false) :
    (heldDesired it a = true → heldPhys st a = false →
      ((stepIter st it).2.count (Emit.press a) = 1 ∧
       (stepIter st it).2.count (Emit.release a) = 0 ∧
       heldPhys (stepIter st it).1 a = true))
  ∧ (heldDesired it a = false → heldPhys st a = true →
      ((stepIter st it).2.count (Emit.press a) = 0 ∧
       (stepIter st it).2.count (Emit.release a) = 1 ∧
       heldPhys (stepIter st it).1 a = false))
  ∧ (heldDesired it a = heldPhys st a →
      ((stepIter st it).2.count (Emit.press a) = 0 ∧
       (stepIter st it).2.count (Emit.release a) = 0 ∧
       heldPhys (stepIter st it).1 a = heldPhys st a)) := by
  refine ⟨fun h1 h2 => ?_, fun h1 h2 => ?_, fun h => ?_⟩ <;>
    cases a <;>
    simp_all [stepIter, hs, List.count_append, heldStep_count_press,
      heldStep_count_release, spamStep_count_press, spamStep_count_release,
      heldStep_fst, heldPhys, heldDesired]

theorem held_edge_exactly_once_witness :
    ((⟨false, true, false, false, false, false, 0, 0, 0⟩ : Iter).susp = false) ∧
    ((stepIter ⟨false, false, false, false, 0⟩ ⟨false, true, false, false, false, false, 0, 0, 0⟩).2.count
        (Emit.press HeldAct.W) = 1 ∧
     (stepIter ⟨false, false, false, false, 0⟩ ⟨false, true, false, false, false, false, 0, 0, 0⟩).2.count
        (Emit.release HeldAct.W) = 0 ∧
     heldPhys (stepIter ⟨false, false, false, false, 0⟩ ⟨false, true, false, false, false, false, 0, 0, 0⟩).1
        HeldAct.W = true) :=
  ⟨rfl,
   (held_edge_exactly_once ⟨false, false, false, false, 0⟩
      ⟨false, true, false, false, false, false, 0, 0, 0⟩ HeldAct.W rfl).1 rfl rfl⟩

/-- C1: once RunningFlag is observed false the worker exits its polling loop
and runs the unconditional `set_all_up` pass: the thread's total emission is
the loop emission followed by the pass and nothing after it; in the pass every
held action whose physical state is down at loop exit receives exactly one
release event; the pass emits no press.  The trace `iters` is arbitrary — in
particular its last snapshots may have `susp = true`, so the pass runs even
while suspended. -/
theorem shutdown_release_pass (iters : List Iter) :
    ((worker_thread iters).2 = (runLoop initWState iters).2 ++ set_all_up_events)
  ∧ (∀ a : HeldAct, heldPhys (runLoop initWState iters).1 a = true →
       set_all_up_events.count (Emit.release a) = 1)
  ∧ (∀ a : HeldAct, set_all_up_events.count (Emit.press a) = 0) := by
  refine ⟨rfl, fun a _ => ?_, fun a => ?_⟩ <;> cases a <;> decide

theorem shutdown_release_pass_witness :
    (heldPhys (runLoop initWState [⟨false, true, false, false, false, false, 0, 0, 0⟩]).1
        HeldAct.W = true) ∧
    set_all_up_events.count (Emit.release HeldAct.W) = 1 :=
  ⟨rfl,
   (shutdown_release_pass [⟨false, true, false, false, false, false, 0, 0, 0⟩]).2.1
      HeldAct.W rfl⟩

/-- C3: while SuspendFlag is true one worker iteration emits zero press events
(held-action presses, spam clicks and cursor moves alike, whatever the stored
flags say), emits exactly one release per held action that was physically
down, records everything up; a further suspended iteration then emits nothing
at all.  `set_suspended` (the ACTION_SUSPEND case of `handle_action`) flips
SuspendFlag and leaves every stored ActionFlag unchanged. -/
theorem suspend_releases_once_keeps_flags :
    (∀ (st : WState) (it : Iter), it.susp = true →
      ((∀ a : HeldAct, (stepIter st it).2.count (Emit.press a) = 0) ∧
       (stepIter st it).2.count Emit.spamDown = 0 ∧
       (stepIter st it).2.count Emit.spamUp = 0 ∧
       (∀ x y : Int, (stepIter st it).2.count (Emit.moveCursor x y) = 0) ∧
       (∀ a : HeldAct, (stepIter st it).2.count (Emit.release a) =
          if heldPhys st a then 1 else 0) ∧
       (∀ a : HeldAct, heldPhys (stepIter st it).1 a = false) ∧
       (∀ it2 : Iter, it2.susp = true → (stepIter (stepIter st it).1 it2).2 = [])))
  ∧ (∀ (g : GState) (c : Int × Int),
       (handle_action g c 5).1.spamLeft = g.spamLeft ∧
       (handle_action g c 5).1.holdW = g.holdW ∧
       (handle_action g c 5).1.holdS = g.holdS ∧
       (handle_action g c 5).1.holdLmb = g.holdLmb ∧
       (handle_action g c 5).1.holdRmb = g.holdRmb ∧
       (handle_action g c 5).1.suspended = !g.suspended) := by
  constructor
  · rintro ⟨w, s, l, r, lc⟩ it hsusp
    refine ⟨fun a => ?_, ?_, ?_, fun x y => ?_, fun a => ?_, fun a => ?_, fun it2 h2 => ?_⟩
    · cases a <;> cases w <;> cases s <;> cases l <;> cases r <;>
        simp [stepIter, hsusp, List.count_append, List.count_cons]
    · cases w <;> cases s <;> cases l <;> cases r <;>
        simp [stepIter, hsusp, List.count_append, List.count_cons]
    · cases w <;> cases s <;> cases l <;> cases r <;>
        simp [stepIter, hsusp, List.count_append, List.count_cons]
    · cases w <;> cases s <;> cases l <;> cases r <;>
        simp [stepIter, hsusp, List.count_append, List.count_cons]
    · cases a <;> cases w <;> cases s <;> cases l <;> cases r <;>
        simp [stepIter, hsusp, heldPhys, List.count_append, List.count_cons]
    · cases a <;> cases w <;> cases s <;> cases l <;> cases r <;>
        simp [stepIter, hsusp, heldPhys]
    · cases w <;> cases s <;> cases l <;> cases r <;>
        simp [stepIter, hsusp, h2]
  · intro g c
    simp [handle_action]

theorem suspend_releases_once_keeps_flags_witness :
    ((⟨true, false, false, false, false, false, 0, 0, 0⟩ : Iter).susp = true) ∧
    (stepIter ⟨true, false, true, false, 0⟩
        ⟨true, false, false, false, false, false, 0, 0, 0⟩).2.count
      (Emit.release HeldAct.W) = (if heldPhys ⟨true, false, true, false, 0⟩ HeldAct.W then 1 else 0) :=
  ⟨rfl,
   ((suspend_releases_once_keeps_flags.1 ⟨true, false, true, false, 0⟩
       ⟨true, false, false, false, false, false, 0, 0, 0⟩ rfl).2.2.2.2.1 HeldAct.W)⟩

/-- C9: `set_all_up` both emits the four physical release events and stores
false into every stored ActionFlag, and the worker thread runs it as its final
act, so after the worker ends all stored desired state is false no matter what
was toggled. -/
theorem set_all_up_resets_all_flags (g : GState) :
    (set_all_up g).1.spamLeft = false ∧
    (set_all_up g).1.holdW = false ∧
    (set_all_up g).1.holdS = false ∧
    (set_all_up g).1.holdLmb = false ∧
    (set_all_up g).1.holdRmb = false ∧
    (set_all_up g).1.running = g.running ∧
    (set_all_up g).1.suspended = g.suspended ∧
    (set_all_up g).2 = set_all_up_events ∧
    (∀ iters : List Iter,
      (worker_thread iters).2 = (runLoop initWState iters).2 ++ (set_all_up g).2) :=
  ⟨rfl, rfl, rfl, rfl, rfl, rfl, rfl, rfl, fun _ => rfl⟩

/-- C10: calling the hotkey entry point `handle_action` with an action index
outside 0..6 (negative, ACTION_COUNT = 7, or beyond) falls through to
`default: break;`: the state is unchanged and nothing is printed. -/
theorem handle_action_out_of_range (g : GState) (c : Int × Int) (action : Int)
    (h : action < 0 ∨ 7 ≤ action) :
    handle_action g c action = (g, []) := by
  unfold handle_action
  rcases h with h | h <;>
    split_ifs with h1 h2 h3 h4 h5 h6 h7 <;> first | rfl | (exfalso; omega)

theorem handle_action_out_of_range_witness :
    ((7 : Int) < 0 ∨ (7 : Int) ≤ 7) ∧
    ((-1 : Int) < 0 ∨ (7 : Int) ≤ -1) ∧
    handle_action ⟨true, false, true, true, false, false, false, 3, 4⟩ (9, 9) 7 =
      (⟨true, false, true, true, false, false, false, 3, 4⟩, []) ∧
    handle_action ⟨true, false, true, true, false, false, false, 3, 4⟩ (9, 9) (-1) =
      (⟨true, false, true, true, false, false, false, 3, 4⟩, []) :=
  ⟨Or.inr (by decide), Or.inl (by decide),
   handle_action_out_of_range _ _ 7 (Or.inr (by decide)),
   handle_action_out_of_range _ _ (-1) (Or.inl (by decide))⟩

/-- C4 counterexample: from a state with SpamClick stored true and suspend
off, triggering ACTION_SPAM_LMB toggles the flag to false (a toggle-off), yet
SavedCursorPosition is overwritten with the live cursor (5, 7) — the claim
said a toggle whose new value is false leaves SavedCursorPosition unchanged. -/
theorem spam_toggle_off_still_captures :
    ((handle_action ⟨true, false, true, false, false, false, false, 0, 0⟩ (5, 7) 0).1.spamLeft
        = false) ∧
    ((handle_action ⟨true, false, true, false, false, false, false, 0, 0⟩ (5, 7) 0).1.savedX
        = 5) ∧
    ¬ ((handle_action ⟨true, false, true, false, false, false, false, 0, 0⟩ (5, 7) 0).1.savedX
        = (⟨true, false, true, false, false, false, false, 0, 0⟩ : GState).savedX) := by
  decide

/-- C4 amended: on toggle(SpamClick) the live cursor is captured into
SavedCursorPosition if and only if SuspendFlag is false — regardless of the
toggle's new value — and the capture is performed before the flag flip; the
flag itself is negated and no other flag changes; toggling while suspended
leaves SavedCursorPosition unchanged. -/
theorem spam_toggle_capture_iff_not_suspended (g : GState) (c : Int × Int) :
    ((handle_action g c 0).1.savedX, (handle_action g c 0).1.savedY) =
      (if g.suspended then (g.savedX, g.savedY) else c) ∧
    (handle_action g c 0).1.spamLeft = !g.spamLeft ∧
    (handle_action g c 0).1.suspended = g.suspended ∧
    (handle_action g c 0).1.holdW = g.holdW ∧
    (handle_action g c 0).1.holdS = g.holdS ∧
    (handle_action g c 0).1.holdLmb = g.holdLmb ∧
    (handle_action g c 0).1.holdRmb = g.holdRmb ∧
    (handle_action g c 0).2 =
      (if g.suspended then [] else [LogEv.savedPos c.1 c.2]) ++
        [LogEv.toggled "Spam LMB" (!g.spamLeft)] := by
  by_cases hsusp : g.suspended <;>
    simp [handle_action, save_cursor_pos, toggle_with_log, hsusp]

/-! Press/release alternation machinery and claim C5. -/

theorem altRun_append (a : HeldAct) (d : Bool) (l1 l2 : List Emit) :
    altRun a d (l1 ++ l2) = (altRun a d l1).bind (fun d2 => altRun a d2 l2) := by
  induction l1 generalizing d with
  | nil => simp [altRun]
  | cons e rest ih =>
      by_cases hp : e = Emit.press a
      · cases d <;> simp [altRun, hp, ih]
      · by_cases hr : e = Emit.release a
        · cases d <;> simp [altRun, hp, hr, ih]
        · simp [altRun, hp, hr, ih]

theorem spamAltRun_append (d : Bool) (l1 l2 : List Emit) :
    spamAltRun d (l1 ++ l2) = (spamAltRun d l1).bind (fun d2 => spamAltRun d2 l2) := by
  induction l1 generalizing d with
  | nil => simp [spamAltRun]
  | cons e rest ih =>
      by_cases hp : e = Emit.spamDown
      · cases d <;> simp [spamAltRun, hp, ih]
      · by_cases hr : e = Emit.spamUp
        · cases d <;> simp [spamAltRun, hp, hr, ih]
        · simp [spamAltRun, hp, hr, ih]

theorem altRun_of_not_mem (a : HeldAct) (d : Bool) (l : List Emit)
    (h : ∀ e ∈ l, e ≠ Emit.press a ∧ e ≠ Emit.release a) : altRun a d l = some d := by
  induction l with
  | nil => rfl
  | cons e rest ih =>
      have he := h e (by simp)
      rw [altRun, if_neg he.1, if_neg he.2]
      exact ih (fun x hx => h x (by simp [hx]))

theorem spamAltRun_of_not_mem (d : Bool) (l : List Emit)
    (h : ∀ e ∈ l, e ≠ Emit.spamDown ∧ e ≠ Emit.spamUp) : spamAltRun d l = some d := by
  induction l with
  | nil => rfl
  | cons e rest ih =>
      have he := h e (by simp)
      rw [spamAltRun, if_neg he.1, if_neg he.2]
      exact ih (fun x hx => h x (by simp [hx]))

theorem heldStep_mem_cases (d p : Bool) (b : HeldAct) :
    ∀ e ∈ (heldStep d p b).2, e = Emit.press b ∨ e = Emit.release b := by
  cases d <;> cases p <;> simp [heldStep]

theorem spamStep_mem_cases (sp : Bool) (sx sy : Int) (t lc : Nat) :
    ∀ e ∈ (spamStep sp sx sy t lc).2,
      e = Emit.moveCursor sx sy ∨ e = Emit.spamDown ∨ e = Emit.spamUp := by
  unfold spamStep
  split
  · split <;> simp
  · simp

theorem altRun_heldStep_self (d p : Bool) (a : HeldAct) :
    altRun a p (heldStep d p a).2 = some (heldStep d p a).1 := by
  cases d <;> cases p <;> simp [heldStep, altRun]

theorem altRun_heldStep_other (d2 p2 : Bool) (a b : HeldAct) (hab : b ≠ a) (d : Bool) :
    altRun a d (heldStep d2 p2 b).2 = some d := by
  refine altRun_of_not_mem a d _ (fun e he => ?_)
  rcases heldStep_mem_cases d2 p2 b e he with h | h <;> subst h <;>
    exact ⟨by simp [hab], by simp [hab]⟩

theorem altRun_spamStep (sp : Bool) (sx sy : Int) (t lc : Nat) (a : HeldAct) (d : Bool) :
    altRun a d (spamStep sp sx sy t lc).2 = some d := by
  refine altRun_of_not_mem a d _ (fun e he => ?_)
  rcases spamStep_mem_cases sp sx sy t lc e he with h | h | h <;> subst h <;> simp

theorem spamAltRun_heldStep (d2 p2 : Bool) (b : HeldAct) (d : Bool) :
    spamAltRun d (heldStep d2 p2 b).2 = some d := by
  refine spamAltRun_of_not_mem d _ (fun e he => ?_)
  rcases heldStep_mem_cases d2 p2 b e he with h | h <;> subst h <;> simp

theorem altRun_stepIter (st : WState) (it : Iter) (a : HeldAct) :
    altRun a (heldPhys st a) (stepIter st it).2 = some (heldPhys (stepIter st it).1 a) := by
  by_cases hs : it.susp
  · rcases st with ⟨w, s, l, r, lc⟩
    cases a <;> cases w <;> cases s <;> cases l <;> cases r <;>
      simp [stepIter, hs, heldPhys, altRun]
  · cases a <;>
      simp [stepIter, hs, heldPhys, altRun_append, altRun_heldStep_self,
        altRun_heldStep_other, altRun_spamStep, heldStep_fst]

theorem spamAltRun_stepIter (st : WState) (it : Iter) :
    spamAltRun false (stepIter st it).2 = some false := by
  by_cases hs : it.susp
  · rcases st with ⟨w, s, l, r, lc⟩
    cases w <;> cases s <;> cases l <;> cases r <;>
      simp [stepIter, hs, spamAltRun]
  · have hsp : spamAltRun false (spamStep it.spam it.sx it.sy it.t st.lastClick).2 =
        some false := by
      unfold spamStep
      split
      · split <;> simp [spamAltRun]
      · simp [spamAltRun]
    simp [stepIter, hs, spamAltRun_append, spamAltRun_heldStep, hsp]

theorem altRun_runLoop (iters : List Iter) (st : WState) (a : HeldAct) :
    altRun a (heldPhys st a) (runLoop st iters).2 =
      some (heldPhys (runLoop st iters).1 a) := by
  induction iters generalizing st with
  | nil => simp [runLoop, altRun]
  | cons it rest ih =>
      simp [runLoop, altRun_append, altRun_stepIter, ih]

theorem spamAltRun_runLoop (iters : List Iter) (st : WState) :
    spamAltRun false (runLoop st iters).2 = some false := by
  induction iters generalizing st with
  | nil => simp [runLoop, spamAltRun]
  | cons it rest ih =>
      simp [runLoop, spamAltRun_append, spamAltRun_stepIter, ih]

/-- C5 counterexample: in a run with a single idle iteration (nothing toggled,
nothing ever pressed), the final `set_all_up` pass still emits a release for
W with no prior press of W, so the full emitted sequence does not alternate
for action W — contradicting the claim that no event is ever emitted without
a matching prior opposite event, including the final shutdown pass. -/
theorem release_without_prior_press :
    ((worker_thread [⟨false, false, false, false, false, false, 0, 0, 0⟩]).2 =
        set_all_up_events) ∧
    ((worker_thread [⟨false, false, false, false, false, false, 0, 0, 0⟩]).2.count
        (Emit.press HeldAct.W) = 0) ∧
    ((worker_thread [⟨false, false, false, false, false, false, 0, 0, 0⟩]).2.count
        (Emit.release HeldAct.W) = 1) ∧
    altRun HeldAct.W false
        (worker_thread [⟨false, false, false, false, false, false, 0, 0, 0⟩]).2 = none :=
  ⟨rfl, rfl, rfl, rfl⟩

/-- C5 amended: over the polling loop proper the events of every action
alternate — `altRun` succeeds from the all-up start, ending exactly in the
action's physical state at loop exit, and the spam-click button events always
alternate (ending released) — but the final `set_all_up` pass releases every
held action unconditionally, so the full emission (pass included) alternates
for a held action precisely when that action was physically down at loop
exit; an action that was up receives an unmatched release from the pass. -/
theorem alternation_characterization (iters : List Iter) :
    (∀ a : HeldAct,
      altRun a false (runLoop initWState iters).2 =
        some (heldPhys (runLoop initWState iters).1 a)) ∧
    spamAltRun false (runLoop initWState iters).2 = some false ∧
    spamAltRun false (worker_thread iters).2 = some false ∧
    (∀ a : HeldAct,
      (altRun a false (worker_thread iters).2).isSome =
        heldPhys (runLoop initWState iters).1 a) := by
  have hinit : ∀ a : HeldAct, heldPhys initWState a = false := fun a => by
    cases a <;> rfl
  refine ⟨fun a => ?_, spamAltRun_runLoop iters initWState, ?_, fun a => ?_⟩
  · have h := altRun_runLoop iters initWState a
    rwa [hinit a] at h
  · simp only [worker_thread, spamAltRun_append, spamAltRun_runLoop, Option.some_bind]
    decide
  · have h := altRun_runLoop iters initWState a
    rw [hinit a] at h
    cases hph : heldPhys (runLoop initWState iters).1 a <;>
      rw [hph] at h <;>
      simp only [worker_thread, altRun_append, h, Option.some_bind] <;>
      cases a <;> decide

/-! Spam-click timing and claim C6. -/

theorem heldStep_count_spamDown (d p : Bool) (b : HeldAct) :
    ((heldStep d p b).2).count Emit.spamDown = 0 := by
  cases d <;> cases p <;> simp [heldStep]

/-- C6 counterexample: a click fires at t = 100 ms (last_click becomes 100),
SpamClick is observed off at t = 110 ms, then observed on again at t = 120 ms.
Elapsed time against the stale timestamp is 20 ms < 30 ms, so no click fires
on that next iteration — the claim that the stale timestamp always satisfies
elapsed ≥ interval, giving an immediate first click after a retoggle, fails. -/
theorem spam_retoggle_no_immediate_click :
    runLoop initWState
      [⟨false, false, false, false, false, true, 0, 0, 100⟩,
       ⟨false, false, false, false, false, false, 0, 0, 110⟩,
       ⟨false, false, false, false, false, true, 0, 0, 120⟩] =
      (⟨false, false, false, false, 100⟩,
       [Emit.moveCursor 0 0, Emit.spamDown, Emit.spamUp]) := rfl

/-- C6 amended: while SuspendFlag is false, an iteration that observes
SpamClick true emits the click triple (move to SavedCursorPosition, press
left, release left) precisely when the uint64 elapsed time `t - last_click`
is at least 30 ms — so after a retoggle the stale timestamp gives an
immediate first click only if 30 ms have already passed since it (true in
particular on the very first toggle-on, where last_click is 0 and the
monotonic clock reads at least 30) — and an emission resets last_click to
now; an iteration observing SpamClick false emits no click and keeps the
stale last_click; for a non-wrapping clock the uint64 difference is the
true elapsed time. -/
theorem spam_click_timing :
    (∀ (st : WState) (it : Iter), it.susp = false → it.spam = true →
      ((stepIter st it).2.count Emit.spamDown =
          (if 30 ≤ usub64 it.t st.lastClick then 1 else 0)) ∧
      ((stepIter st it).1.lastClick =
          (if 30 ≤ usub64 it.t st.lastClick then it.t else st.lastClick)) ∧
      (spamStep it.spam it.sx it.sy it.t st.lastClick =
          if 30 ≤ usub64 it.t st.lastClick then
            (it.t, [Emit.moveCursor it.sx it.sy, Emit.spamDown, Emit.spamUp])
          else (st.lastClick, [])))
  ∧ (∀ (st : WState) (it : Iter), it.susp = false → it.spam = false →
      (stepIter st it).2.count Emit.spamDown = 0 ∧
      (stepIter st it).1.lastClick = st.lastClick)
  ∧ (∀ t lc : Nat, lc ≤ t → t < 2 ^ 64 → usub64 t lc = t - lc) := by
  refine ⟨fun st it hs hsp => ⟨?_, ?_, ?_⟩, fun st it hs hsp => ⟨?_, ?_⟩,
          fun t lc h1 h2 => ?_⟩
  · simp only [stepIter, hs, Bool.false_eq_true, if_false, List.count_append,
      heldStep_count_spamDown, Nat.zero_add, Nat.add_zero]
    unfold spamStep
    rw [hsp, if_pos rfl]
    split <;> simp
  · simp only [stepIter, hs, Bool.false_eq_true, if_false]
    unfold spamStep
    rw [hsp, if_pos rfl]
    split <;> rfl
  · unfold spamStep
    rw [hsp, if_pos rfl]
  · simp only [stepIter, hs, Bool.false_eq_true, if_false, List.count_append,
      heldStep_count_spamDown, Nat.zero_add, Nat.add_zero]
    unfold spamStep
    rw [hsp]
    simp
  · simp only [stepIter, hs, Bool.false_eq_true, if_false]
    unfold spamStep
    rw [hsp]
    simp
  · have hlc : lc % 2 ^ 64 = lc := Nat.mod_eq_of_lt (lt_of_le_of_lt h1 h2)
    rw [usub64, hlc]
    omega

theorem spam_click_timing_witness :
    ((⟨false, false, false, false, false, true, 3, 4, 100⟩ : Iter).susp = false) ∧
    ((⟨false, false, false, false, false, true, 3, 4, 100⟩ : Iter).spam = true) ∧
    ((stepIter ⟨false, false, false, false, 0⟩
        ⟨false, false, false, false, false, true, 3, 4, 100⟩).2.count Emit.spamDown =
      (if 30 ≤ usub64 100 0 then 1 else 0)) ∧
    ((10 : Nat) ≤ 50 ∧ (50 : Nat) < 2 ^ 64) ∧ usub64 50 10 = 50 - 10 :=
  ⟨rfl, rfl,
   (spam_click_timing.1 ⟨false, false, false, false, 0⟩
      ⟨false, false, false, false, false, true, 3, 4, 100⟩ rfl rfl).1,
   ⟨by decide, by decide⟩,
   spam_click_timing.2.2 50 10 (by decide) (by decide)⟩

/-! Configuration loading lemmas for claims C7 and C8. -/

theorem kcfn_cases (v : List Char) :
    key_code_from_name v = 0 ∨ validCode (key_code_from_name v) := by
  simp only [key_code_from_name]
  split_ifs <;> first | (left; rfl) | (right; decide)

theorem apply_config_line_cases (ks : Fin 7 → Nat) (l : List Char) :
    apply_config_line ks l = ks ∨
    ∃ (i : Fin 7) (c : Nat), validCode c ∧
      apply_config_line ks l = Function.update ks i c := by
  rcases l with _ | ⟨ch, rest⟩
  · exact Or.inl rfl
  · simp only [apply_config_line]
    split_ifs with h1
    · exact Or.inl rfl
    · rcases hp : parse_config_line (ch :: rest) with _ | kv
      · simp only [hp]
        exact Or.inl trivial
      · simp only [hp]
        rcases hf : (List.finRange 7).find? (fun i => (g_action_names i).toList = kv.1) with _ | i
        · simp only [hf]
          exact Or.inl trivial
        · simp only [hf]
          by_cases hc : key_code_from_name kv.2 = 0
          · simp only [hc, ne_eq, not_true_eq_false, if_false]
            exact Or.inl trivial
          · simp only [ne_eq, hc, not_false_eq_true, if_true]
            refine Or.inr ⟨i, key_code_from_name kv.2, ?_, rfl⟩
            rcases kcfn_cases kv.2 with h | h
            · exact absurd h hc
            · exact h

theorem apply_config_line_valid (ks : Fin 7 → Nat) (l : List Char)
    (h : ∀ i, validCode (ks i)) : ∀ i, validCode (apply_config_line ks l i) := by
  intro i
  rcases apply_config_line_cases ks l with hac | ⟨j, c, hc, hac⟩
  · rw [hac]; exact h i
  · rw [hac]
    by_cases hij : i = j
    · subst hij; rw [Function.update_same]; exact hc
    · rw [Function.update_noteq hij]; exact h i

theorem load_keeps_valid (file : List (List Char)) (ks : Fin 7 → Nat)
    (h : ∀ i, validCode (ks i)) : ∀ i, validCode (load_hotkey_config ks file i) := by
  induction file generalizing ks with
  | nil => exact h
  | cons l rest ih => exact ih _ (apply_config_line_valid ks l h)

theorem load_unchanged_or_valid (file : List (List Char)) (ks : Fin 7 → Nat) (i : Fin 7) :
    load_hotkey_config ks file i = ks i ∨ validCode (load_hotkey_config ks file i) := by
  induction file generalizing ks with
  | nil => exact Or.inl rfl
  | cons l rest ih =>
      have hstep : load_hotkey_config ks (l :: rest) =
          load_hotkey_config (apply_config_line ks l) rest := rfl
      rcases apply_config_line_cases ks l with hac | ⟨j, c, hc, hac⟩
      · rcases ih (apply_config_line ks l) with h | h
        · left; rw [hstep, h, hac]
        · right; rw [hstep]; exact h
      · rcases ih (apply_config_line ks l) with h | h
        · by_cases hij : i = j
          · right
            rw [hstep, h, hac]
            subst hij
            rw [Function.update_same]
            exact hc
          · left
            rw [hstep, h, hac, Function.update_noteq hij]
        · right; rw [hstep]; exact h

theorem default_hotkeys_valid : ∀ i, validCode (default_hotkeys i) := by decide

theorem takeWhile_ne_append (k rest : List Char) (h : ∀ c ∈ k, c ≠ '=') :
    (k ++ '=' :: rest).takeWhile (fun c => c ≠ '=') = k := by
  induction k with
  | nil =>
      rw [List.nil_append, List.takeWhile_cons, if_neg (by decide)]
  | cons a as ih =>
      have ha : a ≠ '=' := h a (List.mem_cons_self a as)
      rw [List.cons_append, List.takeWhile_cons, if_pos (decide_eq_true ha),
        ih (fun c hc => h c (List.mem_cons_of_mem _ hc))]

theorem takeWhile_nonspace_append (v : List Char) (h : ∀ c ∈ v, isSpaceC c = false) :
    (v ++ ['\n']).takeWhile (fun c => ¬ isSpaceC c) = v := by
  induction v with
  | nil =>
      rw [List.nil_append, List.takeWhile_cons, if_neg (by decide)]
  | cons a as ih =>
      have ha : isSpaceC a = false := h a (List.mem_cons_self a as)
      rw [List.cons_append, List.takeWhile_cons, if_pos (by simp [ha]),
        ih (fun c hc => h c (List.mem_cons_of_mem _ hc))]

theorem parse_config_line_keyval (ch : Char) (k2 v : List Char)
    (hch : isSpaceC ch = false)
    (hk : ∀ c ∈ ch :: k2, c ≠ '=')
    (hklen : (ch :: k2).length ≤ 63)
    (hv0 : v ≠ [])
    (hvS : ∀ c ∈ v, isSpaceC c = false)
    (hvlen : v.length ≤ 63) :
    parse_config_line (ch :: (k2 ++ ('=' :: (v ++ ['\n'])))) = some (ch :: k2, v) := by
  obtain ⟨c0, v2, rfl⟩ : ∃ c0 v2, v = c0 :: v2 := by
    rcases v with _ | ⟨c0, v2⟩
    · exact absurd rfl hv0
    · exact ⟨c0, v2, rfl⟩
  have hc0 : isSpaceC c0 = false := hvS c0 (List.mem_cons_self _ _)
  have e1 : List.dropWhile isSpaceC (ch :: (k2 ++ ('=' :: ((c0 :: v2) ++ ['\n'])))) =
      ch :: (k2 ++ ('=' :: ((c0 :: v2) ++ ['\n']))) :=
    List.dropWhile_cons_of_neg (by simp [hch])
  have ekey : List.take 63 (List.takeWhile (fun c => c ≠ '=')
        (ch :: (k2 ++ ('=' :: ((c0 :: v2) ++ ['\n']))))) = ch :: k2 := by
    rw [show ch :: (k2 ++ ('=' :: ((c0 :: v2) ++ ['\n']))) =
        (ch :: k2) ++ '=' :: ((c0 :: v2) ++ ['\n']) from rfl]
    rw [takeWhile_ne_append _ _ hk, List.take_of_length_le hklen]
  have edrop : List.drop (ch :: k2).length (ch :: (k2 ++ ('=' :: ((c0 :: v2) ++ ['\n'])))) =
      '=' :: ((c0 :: v2) ++ ['\n']) := by
    rw [show ch :: (k2 ++ ('=' :: ((c0 :: v2) ++ ['\n']))) =
        (ch :: k2) ++ '=' :: ((c0 :: v2) ++ ['\n']) from rfl]
    exact List.drop_left _ _
  have edrop2 : List.dropWhile isSpaceC ((c0 :: v2) ++ ['\n']) = (c0 :: v2) ++ ['\n'] := by
    rw [show (c0 :: v2) ++ ['\n'] = c0 :: (v2 ++ ['\n']) from rfl]
    exact List.dropWhile_cons_of_neg (by simp [hc0])
  have eval2 : List.take 63 (List.takeWhile (fun c => ¬ isSpaceC c) ((c0 :: v2) ++ ['\n'])) =
      c0 :: v2 := by
    rw [takeWhile_nonspace_append _ hvS, List.take_of_length_le hvlen]
  simp only [parse_config_line, e1, ekey, edrop, edrop2, eval2]
  simp

theorem g_action_names_ne_nil : ∀ i : Fin 7, (g_action_names i).toList ≠ [] := by
  decide

theorem g_action_names_shape :
    ∀ i : Fin 7,
      (g_action_names i).toList.length ≤ 63 ∧
      (∀ c ∈ (g_action_names i).toList, c ≠ '=') := by
  decide

theorem g_action_names_head :
    ∀ i : Fin 7,
      isSpaceC ((g_action_names i).toList.headD '?') = false ∧
      ¬(((g_action_names i).toList.headD '?') = '#' ∨
        ((g_action_names i).toList.headD '?') = '\n' ∨
        ((g_action_names i).toList.headD '?') = '\r') := by
  decide

theorem find_action_self :
    ∀ i : Fin 7,
      (List.finRange 7).find? (fun j => (g_action_names j).toList = (g_action_names i).toList) =
        some i := by
  decide

theorem key_name_shape (c : Nat) (h : validCode c) :
    (key_name_from_code c).toList ≠ [] ∧
    (∀ ch ∈ (key_name_from_code c).toList, isSpaceC ch = false) ∧
    (key_name_from_code c).toList.length ≤ 63 := by
  simp only [validCode, List.mem_cons, List.not_mem_nil, or_false] at h
  rcases h with rfl | rfl | rfl | rfl | rfl | rfl | rfl | rfl | rfl <;> decide

theorem kcfn_key_name (c : Nat) (h : validCode c) :
    key_code_from_name (key_name_from_code c).toList = c := by
  simp only [validCode, List.mem_cons, List.not_mem_nil, or_false] at h
  rcases h with rfl | rfl | rfl | rfl | rfl | rfl | rfl | rfl | rfl <;> decide

theorem valid_ne_zero (c : Nat) (h : validCode c) : c ≠ 0 := by
  simp only [validCode, List.mem_cons, List.not_mem_nil, or_false] at h
  rcases h with rfl | rfl | rfl | rfl | rfl | rfl | rfl | rfl | rfl <;> decide

theorem apply_saved_line (ks : Fin 7 → Nat) (i : Fin 7) (c : Nat) (h : validCode c) :
    apply_config_line ks
        ((g_action_names i).toList ++ '=' :: (key_name_from_code c).toList ++ ['\n']) =
      Function.update ks i c := by
  obtain ⟨hv0, hvS, hvlen⟩ := key_name_shape c h
  obtain ⟨hklen, hkeq⟩ := g_action_names_shape i
  have hne := g_action_names_ne_nil i
  have hh := g_action_names_head i
  have hfind := find_action_self i
  have hassoc : (g_action_names i).toList ++ '=' :: (key_name_from_code c).toList ++ ['\n'] =
      (g_action_names i).toList ++ ('=' :: ((key_name_from_code c).toList ++ ['\n'])) := by
    simp [List.append_assoc]
  rw [hassoc]
  rcases hname : (g_action_names i).toList with _ | ⟨ch, k2⟩
  · exact absurd hname hne
  · rw [hname] at hkeq hklen hh hfind
    simp only [List.headD_cons] at hh
    have hparse := parse_config_line_keyval ch k2 (key_name_from_code c).toList
      hh.1 hkeq hklen hv0 hvS hvlen
    rw [show (ch :: k2) ++ ('=' :: ((key_name_from_code c).toList ++ ['\n'])) =
        ch :: (k2 ++ ('=' :: ((key_name_from_code c).toList ++ ['\n']))) from rfl]
    simp only [apply_config_line]
    rw [if_neg hh.2]
    simp only [hparse, hfind, kcfn_key_name c h, ne_eq, valid_ne_zero c h,
      not_false_eq_true, if_true]

theorem load_save_of_valid (t0 t : Fin 7 → Nat) (hv : ∀ i, validCode (t i)) (j : Fin 7) :
    load_hotkey_config t0 (save_hotkey_config t) j = t j := by
  have hfr : List.finRange 7 = [(0 : Fin 7), 1, 2, 3, 4, 5, 6] := by decide
  rw [save_hotkey_config, hfr]
  simp only [List.map_cons, List.map_nil]
  rw [load_hotkey_config]
  simp only [List.foldl_cons, List.foldl_nil]
  rw [apply_saved_line t0 0 (t 0) (hv 0),
      apply_saved_line _ 1 (t 1) (hv 1),
      apply_saved_line _ 2 (t 2) (hv 2),
      apply_saved_line _ 3 (t 3) (hv 3),
      apply_saved_line _ 4 (t 4) (hv 4),
      apply_saved_line _ 5 (t 5) (hv 5),
      apply_saved_line _ 6 (t 6) (hv 6)]
  fin_cases j <;> simp [Function.update]

/-- C7: binding-table round trip.  For every reachable binding table — the
defaults possibly modified by loading a config file — writing the table with
`save_hotkey_config` and loading the written lines back (from any current
table) reproduces the identical action-to-key mapping for every action. -/
theorem bindings_round_trip (file : List (List Char)) (t0 : Fin 7 → Nat) (j : Fin 7) :
    load_hotkey_config t0
        (save_hotkey_config (load_hotkey_config default_hotkeys file)) j =
      load_hotkey_config default_hotkeys file j :=
  load_save_of_valid t0 _ (load_keeps_valid file default_hotkeys default_hotkeys_valid) j

/-- C8: loading the keybinding file never aborts and never installs an
unrecognized value: a line starting with a hash and a blank line are ignored,
a parsed line whose action name is unknown, or whose key name is unknown
(`key_code_from_name` gives 0), is silently skipped leaving the binding in
place, and every binding after a load is either untouched or one of the
recognized key codes. -/
theorem config_lines_skipped_safely :
    (∀ (ks : Fin 7 → Nat) (rest : List Char), apply_config_line ks ('#' :: rest) = ks)
  ∧ (∀ ks : Fin 7 → Nat,
      apply_config_line ks ['\n'] = ks ∧ apply_config_line ks [] = ks)
  ∧ (∀ (ks : Fin 7 → Nat) (l key val : List Char),
      parse_config_line l = some (key, val) →
      (List.finRange 7).find? (fun i => (g_action_names i).toList = key) = none →
      apply_config_line ks l = ks)
  ∧ (∀ (ks : Fin 7 → Nat) (l key val : List Char),
      parse_config_line l = some (key, val) →
      key_code_from_name val = 0 →
      apply_config_line ks l = ks)
  ∧ (∀ (ks : Fin 7 → Nat) (file : List (List Char)) (i : Fin 7),
      load_hotkey_config ks file i = ks i ∨ validCode (load_hotkey_config ks file i)) := by
  refine ⟨fun ks rest => ?_, fun ks => ⟨rfl, rfl⟩, fun ks l key val hp hf => ?_,
          fun ks l key val hp hc => ?_, fun ks file i => load_unchanged_or_valid file ks i⟩
  · simp [apply_config_line]
  · rcases l with _ | ⟨ch, rest⟩
    · simp [parse_config_line] at hp
    · simp only [apply_config_line]
      split_ifs with h1
      · rfl
      · simp only [hp, hf]
  · rcases l with _ | ⟨ch, rest⟩
    · simp [parse_config_line] at hp
    · simp only [apply_config_line]
      split_ifs with h1
      · rfl
      · simp only [hp, hc, ne_eq, not_true_eq_false, if_false]
        split <;> rfl

theorem config_lines_skipped_safely_witness :
    (parse_config_line ("Hold W=ZZZ\n".toList) =
        some ("Hold W".toList, "ZZZ".toList)) ∧
    key_code_from_name ("ZZZ".toList) = 0 ∧
    apply_config_line default_hotkeys ("Hold W=ZZZ\n".toList) = default_hotkeys ∧
    (parse_config_line ("Walk=F2\n".toList) =
        some ("Walk".toList, "F2".toList)) ∧
    ((List.finRange 7).find? (fun i => (g_action_names i).toList = "Walk".toList) = none) ∧
    apply_config_line default_hotkeys ("Walk=F2\n".toList) = default_hotkeys ∧
    apply_config_line default_hotkeys ('#' :: "comment".toList) = default_hotkeys :=
  ⟨rfl, rfl,
   config_lines_skipped_safely.2.2.2.1 default_hotkeys ("Hold W=ZZZ\n".toList)
     ("Hold W".toList) ("ZZZ".toList) rfl rfl,
   rfl, rfl,
   config_lines_skipped_safely.2.2.1 default_hotkeys ("Walk=F2\n".toList)
     ("Walk".toList) ("F2".toList) rfl rfl,
   config_lines_skipped_safely.1 default_hotkeys ("comment".toList)⟩
